import Mathlib

/-!
Verification development for the JewishWeatherBot core pipeline
(`src/bot.py`): the signal scorer (`compute_metrics` with helpers
`clamp`, `sigmoid`), qualitative leveling (`lvl3`, `words`) and the
narrative synthesizer (`build_message` with its template pools,
random draws, evidence block and lexical mutation pass).

The embedding is shallow: Python floats become real numbers, the
global `random` module becomes an explicit generator state (`Rng`)
threaded through the synthesizer in the order the source draws from
it, and Python strings become Lean strings (lists of unicode
scalars).  `str.replace` is modelled by `replaceAll` on character
lists, replacing non-overlapping occurrences left to right.
-/

set_option maxHeartbeats 4000000
set_option maxRecDepth 8192

namespace JW

/-- Characters of a string. -/
def toL (s : String) : List Char := s.data

/-- String from characters. -/
def ofL (l : List Char) : String := ⟨l⟩

/-- Fuelled scanner behind `replaceAll`; the fuel only bounds the
recursion (one unit per step, each step consuming at least one
character), so any fuel at least the string length gives the same
result. -/
def replaceAllF (p r : List Char) : Nat → List Char → List Char
  | _, [] => []
  | 0, s => s
  | fuel + 1, c :: s =>
    if p ≠ [] ∧ p <+: (c :: s) then
      r ++ replaceAllF p r fuel ((c :: s).drop p.length)
    else
      c :: replaceAllF p r fuel s

/-- Model of Python `str.replace(p, r)`: replace the non-overlapping
occurrences of `p` by `r`, scanning left to right (greedy, as CPython
does).  The source never calls `replace` with an empty pattern, so the
`p = []` behaviour (identity here) is never exercised. -/
def replaceAll (p r : List Char) (s : List Char) : List Char :=
  replaceAllF p r s.length s

/-- Model of `tpl.format(...)` restricted to one placeholder: the
placeholder `ph` (written `"\x7bname\x7d"` in the template) is replaced
by the value `v`.  The templates of the source contain each placeholder
once and the interpolated values contain no braces, so iterating this
per placeholder agrees with Python's `str.format`. -/
def subst (tpl ph v : String) : String := ofL (replaceAll (toL ph) (toL v) (toL tpl))

/-- Explicit state of the (seedable) randomness source: the stream of
draws the global generator would produce, plus the current position. -/
structure Rng where
  stream : Nat → Nat
  pos : Nat

/-- One raw draw from the randomness source. -/
def drawNat (g : Rng) : Nat × Rng := (g.stream g.pos, ⟨g.stream, g.pos + 1⟩)

/-- Model of `random.random()`: a rational in `[0, 1)` determined by the
generator state. -/
def randFloat (g : Rng) : ℚ × Rng :=
  let d := drawNat g
  (((d.1 % 100 : ℕ) : ℚ) / 100, d.2)

/-- `maybe(p)` from the source: `random.random() < p`. -/
def maybe (p : ℚ) (g : Rng) : Bool × Rng :=
  let d := randFloat g
  (decide (d.1 < p), d.2)

/-- `pick(items)` from the source: `random.choice(items)`, an index into
the pool determined by the generator state. -/
def pick (items : List String) (g : Rng) : String × Rng :=
  let d := drawNat g
  (items.getD (d.1 % items.length) "", d.2)

/-- Cumulative selection underlying `random.choices(items, weights)`:
walk the weights, subtracting, until the drawn value falls in the
current bucket; the last item catches the remainder. -/
def chooseWeighted : List (String × ℚ) → ℚ → String
  | [], _ => ""
  | [(s, _)], _ => s
  | (s, w) :: rest, x => if x < w then s else chooseWeighted rest (x - w)

/-- One step of the extraction shuffle modelling `random.shuffle`:
repeatedly extract the element at a drawn index. -/
def shuffleList (xs : List String) (g : Rng) : List String × Rng :=
  match xs with
  | [] => ([], g)
  | a :: t =>
    let r := shuffleList ((a :: t).eraseIdx ((drawNat g).1 % (a :: t).length)) (drawNat g).2
    ((a :: t).getD ((drawNat g).1 % (a :: t).length) "" :: r.1, r.2)
termination_by xs.length
decreasing_by
  have hi : (drawNat g).1 % (a :: t).length < (a :: t).length :=
    Nat.mod_lt _ (by simp)
  simp only [List.length_eraseIdx, if_pos hi]
  omega

/-- `Article` from the source; the timestamp is an integer epoch value
(only ordering of timestamps matters to the core). -/
structure Article where
  title : String
  url : String
  seendate : ℤ
  source_country : Option String
deriving DecidableEq

/-- `clamp(x, lo, hi)` from the source. -/
def clamp {α : Type} [LinearOrder α] (x lo hi : α) : α := max lo (min hi x)

/-- `sigmoid(x)` from the source. -/
noncomputable def sigmoid (x : ℝ) : ℝ := 1 / (1 + Real.exp (-x))

/-- The scorer's output dictionary.  The source stores `float(n)` under
`"n"` and reads it back with `int(...)`; the round-trip is the identity
on list lengths, so the count is kept as a natural number. -/
structure Metrics where
  n : ℕ
  precipitation : ℝ
  wind : ℝ
  pressure : ℝ
  temperature : ℝ
  confidence : ℝ

/-- The list-comprehension filter `if a.source_country` of the source:
Python truthiness drops both a missing tag and an empty string. -/
def truthyCountry (a : Article) : Option String :=
  match a.source_country with
  | none => none
  | some s => if s = "" then none else some s

/-- `compute_metrics(articles_24h)` from the source. -/
noncomputable def compute_metrics (articles_24h : List Article) : Metrics :=
  let n := articles_24h.length
  let precipitation := clamp (1 - Real.exp (-(n : ℝ) / 6)) 0 1
  let wind := clamp (sigmoid (((n : ℝ) - 4) * 0.7)) 0 1
  let countries := articles_24h.filterMap truthyCountry
  let diversity := countries.dedup.length
  let pressure := clamp (1 - Real.exp (-(diversity : ℝ) / 4)) 0 1
  let temperature := clamp (0.55 * precipitation + 0.30 * wind + 0.15 * pressure) 0 1
  let confidence := clamp (1 - Real.exp (-(n : ℝ) / 5.5)) 0 1
  ⟨n, precipitation, wind, pressure, temperature, confidence⟩

/-- `lvl3(x, a, b, low, mid, high)` from the source (stated over any
linear order; the source applies it to floats). -/
def lvl3 {α : Type} [LinearOrder α] (x a b : α) (low mid high : String) : String :=
  if x < a then low
  else if x < b then mid
  else high

/-- The record of qualitative labels produced by `words(metrics)`. -/
structure Words where
  precip : String
  wind : String
  press : String
  temp : String
  conf : String
deriving DecidableEq

/-- `words(metrics)` from the source. -/
noncomputable def words (m : Metrics) : Words :=
  let precip := lvl3 m.precipitation 0.25 0.65 "низкая" "умеренная" "высокая"
  let wind := lvl3 m.wind 0.25 0.65 "слабый" "заметный" "порывистый"
  let press := lvl3 m.pressure 0.25 0.65 "спокойное" "переменное" "нестабильное"
  let temp0 := lvl3 m.temperature 0.30 0.75 "прохладная" "тёплая" "горячая"
  let temp := if m.temperature > 0.88 then "перегретая" else temp0
  let conf := lvl3 m.confidence 0.35 0.75 "низкая" "средняя" "высокая"
  ⟨precip, wind, press, temp, conf⟩

/-- `ANCHORS` pool from the source. -/
def ANCHORS : List String := [
  "☁️ Прогноз общественной погоды",
  "🌦 Политико-метеосводка",
  "⛅ Прогноз по атмосферным обсуждениям",
  "🌤 Городская погодная сводка по повестке",
  "🌥 Прогноз настроений и заголовков",
  "🛰 Сводка с радара ленты",
  "📡 Облачный бюллетень новостей"]

/-- `VOICE_TAGS` pool from the source. -/
def VOICE_TAGS : List String := [
  "Говорит метеостанция здравого смысла.",
  "На связи синоптики реальности.",
  "Передаём с фронта заголовков.",
  "Доклад с балкона критического мышления.",
  "Сводка с метеорадара комментариев.",
  "Служба наблюдения за повесткой сообщает.",
  "Официально-неофициальная метеослужба: внимание."]

/-- `OPENERS` pool from the source. -/
def OPENERS : List String := [
  "За последние 24 часа воздух заметно наэлектризовался словами.",
  "За сутки в атмосфере накопилось достаточно шума, чтобы он начал казаться погодой.",
  "Последние 24 часа: лента ведёт себя как климат, но это всё ещё эмоции.",
  "Сутки были насыщены упоминаниями — местами с эффектом грома без дождя.",
  "Суточный прогноз: вероятность событий оценивается по публичным сигналам."]

/-- `MORNING_TEMPLATES` pool from the source. -/
def MORNING_TEMPLATES : List String := [
  "Утром вероятны {phenomenon} — явление {desc}.",
  "С утра возможны {phenomenon}: {desc}.",
  "Первая половина дня обещает {phenomenon}. По ощущениям — {desc}.",
  "На утреннем горизонте: {phenomenon}. Характер: {desc}.",
  "Утро приносит {phenomenon}, и это {desc}."]

/-- `PHENOMENA` pool from the source. -/
def PHENOMENA : List String := [
  "локальные выступления и митинговая повестка",
  "точечные всплески уличной активности",
  "волны солидарности и встречные течения",
  "скопления людей вокруг громких тем",
  "порывы плакатов и лозунгов (местами)",
  "мелкая морось дискуссий вокруг выходов на улицу",
  "облачность из призывов и контрпризывов"]

/-- `DESCS` pool from the source. -/
def DESCS : List String := [
  "шумное, но обычно кратковременное",
  "визуально плотное, но часто переменное",
  "эмоционально громкое, но не всегда длительное",
  "с оттенком «сейчас-сейчас» и быстрым рассеиванием",
  "похожее на грозу: много звука, мало осадков",
  "то сгущается, то исчезает — как будто само сомневается"]

/-- `DAY_TEMPLATES` pool from the source. -/
def DAY_TEMPLATES : List String := [
  "Днём ожидаются {day_event}; рекомендуется {advice}.",
  "После обеда возможны {day_event}. На всякий случай — {advice}.",
  "Во второй половине дня — {day_event}. Лучше держать рядом: {advice}.",
  "К середине дня поднимаются {day_event}. Практика дня: {advice}.",
  "Днём — {day_event}. Метеозащита: {advice}.",
  "Дневной фон: {day_event}. Совет: {advice}."]

/-- `DAY_EVENTS` pool from the source. -/
def DAY_EVENTS : List String := [
  "порывы «breaking news»",
  "облака срочных интерпретаций",
  "резкие смены ветра в заголовках",
  "вспышки спорных тезисов",
  "ливни из «экспертных» выводов",
  "перепады тона в комментариях",
  "переохлаждение фактов и перегрев мнений",
  "кратковременные штормы в соцсетях"]

/-- `ADVICES` pool from the source. -/
def ADVICES : List String := [
  "зонт критического мышления",
  "куртку здравого смысла",
  "пауза между «увидел» и «поверил»",
  "проверка источников перед репостом",
  "ограничитель новостного скролла",
  "тёплый чай и холодная голова",
  "режим «не спорю на голодный мозг»",
  "правило двух вкладок: факт + первоисточник"]

/-- `EVENING_TEMPLATES` pool from the source. -/
def EVENING_TEMPLATES : List String := [
  "К вечеру возможен {evening}: {evening_desc}.",
  "Ближе к вечеру — {evening}. Итог: {evening_desc}.",
  "Вечером приходит {evening} — и {evening_desc}.",
  "К ночи вероятен {evening}. Обычно это когда {evening_desc}.",
  "Финал дня: {evening}. Это значит — {evening_desc}."]

/-- `EVENINGS` pool from the source. -/
def EVENINGS : List String := [
  "шаббат-бриз",
  "затишье вне ленты",
  "режим «отложенные новости»",
  "возврат к человеческому масштабу",
  "тихая пауза в споре",
  "проветривание головы от новостей",
  "вечерняя тишина без срочности"]

/-- `EVENING_DESCS` pool from the source. -/
def EVENING_DESCS : List String := [
  "шум стихает, а смысл становится слышнее",
  "темп падает, и хочется говорить тише",
  "появляется шанс на нормальные слова",
  "вдруг оказывается, что люди важнее дискуссий",
  "заголовки откладываются, а жизнь остаётся",
  "вопросы остаются, но крик уходит",
  "можно зажечь свет — и не доказывать его необходимость"]

/-- `METRIC_TEMPLATES` pool from the source. -/
def METRIC_TEMPLATES : List String := [
  "🌡 Температура общественного мнения — **{temp}**.\n🌬 Ветер заголовков — **{wind}**.\n🌍 Международное давление — **{press}**.",
  "🌡 Температура: **{temp}** | 🌬 Ветер: **{wind}** | 🌍 Давление: **{press}**.",
  "🌡 По ощущениям: **{temp}**.\n🌬 Порывы: **{wind}**.\n🌍 Давление: **{press}**.",
  "🌡 Состояние воздуха: **{temp}**.\n🌬 Движение заголовков: **{wind}**.\n🌍 Давление внешнее: **{press}**."]

/-- `RADAR_HEADERS` pool from the source. -/
def RADAR_HEADERS : List String := [
  "📡 Радар за 24 часа",
  "🛰 Радар суток",
  "📍 Суточный радар упоминаний",
  "🧭 Показания за сутки",
  "🗞 Индекс ленты за 24ч"]

/-- `RADAR_LINES` pool from the source. -/
def RADAR_LINES : List String := [
  "Публичных сигналов за 24 часа: **{n}**.",
  "За сутки найдено упоминаний/анонсов: **{n}**.",
  "Суточное количество сигналов: **{n}**.",
  "Индекс упоминаний (24ч): **{n}**.",
  "Сводка счётчика за 24 часа: **{n}**."]

/-- `CONF_TEMPLATES` pool from the source. -/
def CONF_TEMPLATES : List String := [
  "🔎 Уверенность прогноза: **{conf}** (больше сигналов → выше уверенность).",
  "🔎 Надёжность оценки: **{conf}**.",
  "🔎 Доверие к прогнозу: **{conf}**.",
  "🔎 Качество сигнала: **{conf}**."]

/-- `ASIDES` pool from the source. -/
def ASIDES : List String := [
  "🧲 Магнитных бурь не ожидается, но внутренние — возможны.",
  "🪟 Рекомендуется проветрить ленту и закрыть вкладки со слухами.",
  "🧊 Осторожно: лёд в комментариях. Держитесь ближе к фактам.",
  "🧯 При перегреве — выключить спор и включить дыхание.",
  "🧠 Побочный эффект новостей: уверенность без доказательств.",
  "🧾 Если кто-то кричит «всё очевидно» — проверьте, что именно.",
  "🧘 Минимум: не спорить в моменте. Максимум: быть человеком."]

/-- `FINALS` pool from the source. -/
def FINALS : List String := [
  "Береги себя: даже пасмурная повестка не отменяет свет.",
  "Помни: свет не требует разрешения у заголовков.",
  "Береги голову и сердце: в любую погоду можно оставаться человеком.",
  "Даже если небо спорит — свеча всё равно горит.",
  "Погода меняется. Человечность — тоже может, если её тренировать.",
  "Если стало шумно — сделай тише внутри. Это тоже навык.",
  "Не отменяй свет из-за прогноза. Добавь его сам."]

/-- `MICRO_SECTIONS` pool from the source. -/
def MICRO_SECTIONS : List String := [
  "🧾 Местами возможна путаница между «анонсом» и «обсуждением». Это нормально: погода слов — коварна.",
  "🧩 Иногда заголовок — это облако без дождя. Не выдавайте его за климат.",
  "🧷 Короткое правило: один факт — два источника.",
  "🕯️ Если день тяжёлый — уменьши скорость. Это не капитуляция, это управление.",
  "🧠 Напоминание: громкость — не аргумент."]

/-- `random.choices(MODELS, weights=[0.35, 0.18, 0.12, 0.10, 0.15, 0.10], k=1)[0]`
from the source, over the `MODELS` pool in its order. -/
def modeDraw (g : Rng) : String × Rng :=
  let d := randFloat g
  (chooseWeighted [("classic", 0.35), ("philosophical", 0.18), ("dry", 0.12),
    ("poetic", 0.10), ("radio", 0.15), ("minimal", 0.10)] d.1, d.2)

/-- The "top" sections of `build_message` for the non-`minimal` modes:
the mode-dependent header block, with the conditional opener draws of
the `radio` and default (`classic`) branches. -/
def buildTop (mode title voice opener : String) (g : Rng) : List String × Rng :=
  if mode = "radio" then
    let b := maybe 0.75 g
    (["📻 " ++ title, voice] ++ (if b.1 then [opener] else []), b.2)
  else if mode = "dry" then
    ([title, "Сводка за сутки по публичным сигналам."], g)
  else if mode = "poetic" then
    ([title ++ "\n" ++ voice ++ "\nСегодня воздух пахнет словами."], g)
  else if mode = "philosophical" then
    ([title ++ "\n" ++ voice ++ "\nГлавное — не путать громкость с правдой."], g)
  else
    let b := maybe 0.6 g
    ([title ++ "\n" ++ voice] ++ (if b.1 then [opener] else []), b.2)

/-- The optional shuffle of the morning/day/evening trio. -/
def trioShuffle (morning day evening : String) (g : Rng) : List String × Rng :=
  let b35 := maybe 0.35 g
  if b35.1 then shuffleList [morning, day, evening] b35.2
  else ([morning, day, evening], b35.2)

/-- The morning/day/evening trio of `build_message`: an optional
shuffle, then (with probability 0.75) the evening section is moved to
the end. -/
def buildTrio (morning day evening : String) (g : Rng) : List String × Rng :=
  let t1 := trioShuffle morning day evening g
  let b75 := maybe 0.75 t1.2
  ((if b75.1 then (t1.1.filter (fun x => x ≠ evening)) ++ [evening] else t1.1), b75.2)

/-- The metrics/radar/confidence tail of `build_message`: the
confidence block joins with probability 0.85, then the tail is
shuffled. -/
def buildTail (metrics_block radar_block conf_block : String) (g : Rng) : List String × Rng :=
  let b85 := maybe 0.85 g
  shuffleList ([metrics_block, radar_block] ++ (if b85.1 then [conf_block] else [])) b85.2

/-- An optional section drawn from a pool: the Bernoulli draw first,
and the pool is sampled only when it succeeds (as in the source). -/
def maybeSection (p : ℚ) (pool : List String) (g : Rng) : List String × Rng :=
  let b := maybe p g
  if b.1 then
    let x := pick pool b.2
    ([x.1], x.2)
  else ([], b.2)

/-- The bullet lines of the evidence block: the first six representative
articles, each rendered as a title line followed by its URL. -/
def evidenceLines (arts : List Article) : List String :=
  (arts.take 6).map (fun a => "• " ++ a.title ++ "\n  " ++ a.url)

/-- `"\n".join(lines)` from the source. -/
def joinNl : List String → String
  | [] => ""
  | [s] => s
  | s :: r :: t => s ++ "\n" ++ joinNl (r :: t)

/-- `"\n\n".join(sections)` from the source. -/
def joinNN : List String → String
  | [] => ""
  | [s] => s
  | s :: r :: t => s ++ "\n\n" ++ joinNN (r :: t)

/-- The evidence block appended by `build_message` when representative
articles exist and the Bernoulli draw succeeds. -/
def evidenceBlock (arts : List Article) : String :=
  "📰 Открытые сигналы (последние 24ч):\n" ++ joinNl (evidenceLines arts)

/-- The conditional append of the evidence block (the pure part of
`if top_articles and maybe(0.70): sections.append(...)`). -/
def appendEvidence (arts : List Article) (b : Bool) (secs : List String) : List String :=
  if b then secs ++ [evidenceBlock arts] else secs

/-- `text.strip()` on characters: leading and trailing whitespace
removed. -/
def trimL (s : List Char) : List Char :=
  ((s.dropWhile (fun c => c.isWhitespace)).reverse.dropWhile (fun c => c.isWhitespace)).reverse

/-- The pattern `"за 24 часа"` of the first mutation. -/
def pat24 : List Char := toL "за 24 часа"

/-- The replacement `"за последние сутки"` of the first mutation. -/
def repPosled : List Char := toL "за последние сутки"

/-- The pattern `"за сутки"` of the chained first mutation. -/
def patSutki : List Char := toL "за сутки"

/-- The pattern `"общественной"` of the second mutation. -/
def patObsh : List Char := toL "общественной"

/-- The replacement `"публичной"` of the second mutation. -/
def repPubl : List Char := toL "публичной"

/-- The lexical mutation pass at the end of `build_message`, with the
two Bernoulli outcomes made explicit: with probability 0.25 the text
undergoes `replace("за 24 часа", "за последние сутки")` followed by
`replace("за сутки", "за 24 часа")`, and with probability 0.18 it
undergoes `replace("общественной", "публичной")`. -/
def mutatePass (b1 b2 : Bool) (t : List Char) : List Char :=
  let t1 := if b1 then replaceAll patSutki pat24 (replaceAll pat24 repPosled t) else t
  if b2 then replaceAll patObsh repPubl t1 else t1

/-- The mode-dependent assembly of `build_message` (everything between
the up-front phrase draws and the evidence block), shared by
`buildSections`. -/
def sectionsCore (mode title voice opener morning day evening metrics_block
    radar_block conf_block final : String) (g : Rng) : List String × Rng :=
  if mode = "minimal" then
    let b := maybe 0.7 g
    ([title, radar_block] ++ (if b.1 then [metrics_block] else []) ++ [final], b.2)
  else
    let top := buildTop mode title voice opener g
    let trio := buildTrio morning day evening top.2
    let tail := buildTail metrics_block radar_block conf_block trio.2
    let e1 := maybeSection 0.35 ASIDES tail.2
    let e2 := maybeSection 0.25 MICRO_SECTIONS e1.2
    (top.1 ++ trio.1 ++ tail.1 ++ e1.1 ++ e2.1 ++ [final], e2.2)

/-- The sections assembled by `build_message` before the evidence
block, the draws threaded in the order the source makes them. -/
noncomputable def buildSections (city : String) (m : Metrics) (g0 : Rng) :
    List String × Rng :=
  let w := words m
  let p1 := modeDraw g0
  let mode := p1.1
  let p2 := pick ANCHORS p1.2
  let title := p2.1 ++ ": " ++ city
  let p3 := pick VOICE_TAGS p2.2
  let voice := p3.1
  let p4 := pick OPENERS p3.2
  let opener := p4.1
  let p5 := pick MORNING_TEMPLATES p4.2
  let p6 := pick PHENOMENA p5.2
  let p7 := pick DESCS p6.2
  let morning := subst (subst p5.1 "{phenomenon}" p6.1) "{desc}" p7.1
  let p8 := pick DAY_TEMPLATES p7.2
  let p9 := pick DAY_EVENTS p8.2
  let p10 := pick ADVICES p9.2
  let day := subst (subst p8.1 "{day_event}" p9.1) "{advice}" p10.1
  let p11 := pick EVENING_TEMPLATES p10.2
  let p12 := pick EVENINGS p11.2
  let p13 := pick EVENING_DESCS p12.2
  let evening := subst (subst p11.1 "{evening}" p12.1) "{evening_desc}" p13.1
  let p14 := pick METRIC_TEMPLATES p13.2
  let metrics_block := subst (subst (subst p14.1 "{temp}" w.temp) "{wind}" w.wind) "{press}" w.press
  let p15 := pick RADAR_HEADERS p14.2
  let p16 := pick RADAR_LINES p15.2
  let radar_block := p15.1 ++ "\n" ++ subst p16.1 "{n}" (toString m.n)
  let p17 := pick CONF_TEMPLATES p16.2
  let conf_block := subst p17.1 "{conf}" w.conf
  let p18 := pick FINALS p17.2
  let final := p18.1
  sectionsCore mode title voice opener morning day evening metrics_block
    radar_block conf_block final p18.2

/-- `build_message(city, metrics, top_articles)` from the source, the
randomness source explicit.  The evidence draw happens only when
articles exist (Python's `and` short-circuits); the two mutation draws
always happen, in order. -/
noncomputable def build_message (city : String) (m : Metrics) (top_articles : List Article)
    (g0 : Rng) : String :=
  let s1 := buildSections city m g0
  let s2 :=
    if top_articles.isEmpty then s1
    else
      let b := maybe 0.7 s1.2
      (appendEvidence top_articles b.1 s1.1, b.2)
  let text0 := trimL (toL (joinNN s2.1))
  let b1 := maybe 0.25 s2.2
  let b2 := maybe 0.18 b1.2
  ofL (mutatePass b1.1 b2.1 text0)

/-- The qualitative level labels interpolated by `words` into the
report text. -/
def labelStrings : List (List Char) :=
  [toL "низкая", toL "умеренная", toL "высокая",
   toL "слабый", toL "заметный", toL "порывистый",
   toL "спокойное", toL "переменное", toL "нестабильное",
   toL "прохладная", toL "тёплая", toL "горячая", toL "перегретая",
   toL "средняя"]

/-- `w` and `x` cannot overlap in any string: `w` does not occur inside
`x` nor `x` inside `w`, no nonempty prefix of `w` is a suffix of `x`,
and no nonempty suffix of `w` is a prefix of `x`. -/
def noOverlap (w x : List Char) : Prop :=
  (¬ w <:+: x) ∧ (¬ x <:+: w) ∧
  (∀ k, k < w.length + 1 → 0 < k → ¬ (w.take k <:+ x)) ∧
  (∀ k, k < w.length + 1 → 0 < k → ¬ (w.drop (w.length - k) <+: x))

instance (w x : List Char) : Decidable (noOverlap w x) := by
  unfold noOverlap
  infer_instance

/-- A concrete article for witnesses. -/
def sampleArticle : Article := ⟨"t", "u", 0, none⟩

/-! ### Lemmas about the string machinery -/

theorem replaceAllF_congr (p r : List Char) : ∀ (f1 f2 : Nat) (s : List Char),
    s.length ≤ f1 → s.length ≤ f2 → replaceAllF p r f1 s = replaceAllF p r f2 s := by
  intro f1
  induction f1 with
  | zero =>
    intro f2 s h1 _
    have hs : s = [] := by cases s <;> simp_all
    subst hs
    cases f2 <;> rfl
  | succ n IH =>
    intro f2 s h1 h2
    match s with
    | [] => cases f2 <;> rfl
    | c :: s' =>
      obtain ⟨m, rfl⟩ : ∃ m, f2 = m + 1 := by
        cases f2
        · simp at h2
        · exact ⟨_, rfl⟩
      simp only [replaceAllF]
      by_cases hc : p ≠ [] ∧ p <+: (c :: s')
      · rw [if_pos hc, if_pos hc]
        congr 1
        have hp : 0 < p.length := List.length_pos.mpr hc.1
        apply IH
        · simp only [List.length_drop, List.length_cons]
          simp only [List.length_cons] at h1
          omega
        · simp only [List.length_drop, List.length_cons]
          simp only [List.length_cons] at h2
          omega
      · rw [if_neg hc, if_neg hc]
        congr 1
        apply IH
        · simp only [List.length_cons] at h1
          omega
        · simp only [List.length_cons] at h2
          omega

theorem replaceAll_nil (p r : List Char) : replaceAll p r [] = [] := rfl

theorem replaceAll_cons_pos (p r : List Char) (c : Char) (s : List Char)
    (hp : p ≠ []) (hpre : p <+: c :: s) :
    replaceAll p r (c :: s) = r ++ replaceAll p r ((c :: s).drop p.length) := by
  unfold replaceAll
  simp only [List.length_cons, replaceAllF]
  rw [if_pos ⟨hp, hpre⟩]
  congr 1
  apply replaceAllF_congr
  · have hpp := List.length_pos.mpr hp
    simp only [List.length_drop, List.length_cons]
    omega
  · exact le_rfl

theorem replaceAll_cons_neg (p r : List Char) (c : Char) (s : List Char)
    (hpre : ¬ (p ≠ [] ∧ p <+: c :: s)) :
    replaceAll p r (c :: s) = c :: replaceAll p r s := by
  unfold replaceAll
  simp only [List.length_cons, replaceAllF]
  rw [if_neg hpre]

theorem occCons {w : List Char} {c : Char} {x : List Char} :
    w <:+: c :: x ↔ w <+: c :: x ∨ w <:+: x :=
  List.infix_cons_iff

theorem prefToOcc {l₁ l₂ : List Char} (h : l₁ <+: l₂) : l₁ <:+: l₂ :=
  List.IsPrefix.isInfix h

theorem suffToOcc {l₁ l₂ : List Char} (h : l₁ <:+ l₂) : l₁ <:+: l₂ :=
  List.IsSuffix.isInfix h

theorem noOverlap_ps {w x : List Char} (h : noOverlap w x) {t : List Char}
    (ht : t ≠ []) (hp : t <+: w) : ¬ t <:+ x := by
  have he : t = w.take t.length := List.prefix_iff_eq_take.mp hp
  have hlen : t.length ≤ w.length := List.IsPrefix.length_le hp
  have hpos : 0 < t.length := List.length_pos.mpr ht
  intro hs
  exact h.2.2.1 t.length (by omega) hpos (by rwa [← he])

theorem noOverlap_sp {w x : List Char} (h : noOverlap w x) {t : List Char}
    (ht : t ≠ []) (hs : t <:+ w) : ¬ t <+: x := by
  have he : t = w.drop (w.length - t.length) := List.suffix_iff_eq_drop.mp hs
  have hlen : t.length ≤ w.length := List.IsSuffix.length_le hs
  have hpos : 0 < t.length := List.length_pos.mpr ht
  intro hp
  exact h.2.2.2 t.length (by omega) hpos (by rwa [← he])

/-- An occurrence of `w` in `x ++ u` cannot start inside `x` when `w`
neither occurs in `x` nor has a nonempty prefix that is a suffix of
`x`; so it is exactly an occurrence in `u`. -/
theorem skipLeft {w x : List Char} (hw : w ≠ []) (h1 : ¬ w <:+: x)
    (hps : ∀ t, t ≠ [] → t <+: w → ¬ t <:+ x) :
    ∀ u, (w <:+: x ++ u ↔ w <:+: u) := by
  intro u
  constructor
  · rintro ⟨a, b, hab⟩
    rw [List.append_assoc] at hab
    rcases List.append_eq_append_iff.mp hab with ⟨a', hx, hwb⟩ | ⟨c', ha, hu⟩
    · rcases List.append_eq_append_iff.mp hwb with ⟨a'', ha', hb⟩ | ⟨c'', hwsplit, hu2⟩
      · exfalso
        apply h1
        have hwa : w <:+: a' := prefToOcc ⟨a'', ha'.symm⟩
        have hax : a' <:+ x := ⟨a, hx.symm⟩
        exact List.IsInfix.trans hwa (suffToOcc hax)
      · rcases eq_or_ne a' [] with rfl | hane
        · refine ⟨[], b, ?_⟩
          simp only [List.nil_append] at hwsplit ⊢
          rw [hwsplit, ← hu2]
        · exfalso
          have hax : a' <:+ x := ⟨a, hx.symm⟩
          exact hps a' hane ⟨c'', hwsplit.symm⟩ hax
    · exact ⟨c', b, by rw [hu, ← List.append_assoc]⟩
  · rintro ⟨a, b, hab⟩
    exact ⟨x ++ a, b, by rw [← hab]; simp⟩

/-- Prefix preservation through `replaceAll` for every nonempty suffix
`v` of a word `w` that cannot overlap the pattern or the replacement. -/
theorem prefKeep {w p r : List Char} (hp : p ≠ [])
    (h1 : ∀ t, t ≠ [] → t <:+ w → ¬ t <+: p) (h2 : ¬ p <:+: w)
    (h3 : ∀ t, t ≠ [] → t <:+ w → ¬ t <+: r) (h4 : ¬ r <:+: w) :
    ∀ (s v : List Char), v ≠ [] → v <:+ w → (v <+: replaceAll p r s ↔ v <+: s) := by
  intro s
  induction s with
  | nil =>
    intro v hv _
    rw [replaceAll_nil]
  | cons c s' IH =>
    intro v hv hvw
    by_cases hcond : p <+: c :: s'
    · rw [replaceAll_cons_pos p r c s' hp hcond]
      apply iff_of_false
      · rintro ⟨z, hz⟩
        rcases List.append_eq_append_iff.mp hz with ⟨a', hr, _⟩ | ⟨c', hv', _⟩
        · exact h3 v hv hvw ⟨a', hr.symm⟩
        · exact h4 (List.IsInfix.trans (prefToOcc ⟨c', hv'.symm⟩) (suffToOcc hvw))
      · intro hvpre
        rcases List.prefix_or_prefix_of_prefix hvpre hcond with hvp | hpv
        · exact h1 v hv hvw hvp
        · exact h2 (List.IsInfix.trans (prefToOcc hpv) (suffToOcc hvw))
    · rw [replaceAll_cons_neg p r c s' (by tauto)]
      match v, hv with
      | d :: v', _ =>
        rw [List.cons_prefix_cons, List.cons_prefix_cons]
        rcases List.eq_nil_or_concat v' with rfl | _
        · simp
        · have hv'ne : v' ≠ [] := by rintro rfl; simp_all
          have hv'w : v' <:+ w :=
            List.IsSuffix.trans (List.suffix_cons d v') hvw
          rw [IH v' hv'ne hv'w]

/-- Occurrence preservation through `replaceAll`: a word that cannot
overlap the pattern or the replacement occurs in the rewritten string
iff it occurs in the original. -/
theorem occKeep {w p r : List Char} (hw : w ≠ []) (hp : p ≠ []) (hr : r ≠ [])
    (hop : noOverlap w p) (hor : noOverlap w r) :
    ∀ s, (w <:+: replaceAll p r s ↔ w <:+: s) := by
  have main : ∀ (n : ℕ) (s : List Char), s.length ≤ n →
      (w <:+: replaceAll p r s ↔ w <:+: s) := by
    intro n
    induction n with
    | zero =>
      intro s hs
      have : s = [] := by cases s <;> simp_all
      subst this
      rw [replaceAll_nil]
    | succ n IH =>
      intro s hs
      match s with
      | [] => rw [replaceAll_nil]
      | c :: s' =>
        by_cases hcond : p <+: c :: s'
        · rw [replaceAll_cons_pos p r c s' hp hcond]
          have hA := skipLeft hw hor.1 (fun t ht htp => noOverlap_ps hor ht htp)
          have hB := skipLeft hw hop.1 (fun t ht htp => noOverlap_ps hop ht htp)
          have hdrop : p ++ (c :: s').drop p.length = c :: s' :=
            List.prefix_iff_eq_append.mp hcond
          have hlen : ((c :: s').drop p.length).length ≤ n := by
            have hppos : 0 < p.length := List.length_pos.mpr hp
            simp only [List.length_drop, List.length_cons]
            simp only [List.length_cons] at hs
            omega
          rw [hA, IH _ hlen, ← hB ((c :: s').drop p.length), hdrop]
        · rw [replaceAll_cons_neg p r c s' (by tauto)]
          rw [occCons, occCons]
          have hpref : (w <+: c :: replaceAll p r s') ↔ (w <+: c :: s') := by
            have hh := prefKeep hp (fun t ht hts => noOverlap_sp hop ht hts) hop.2.1
              (fun t ht hts => noOverlap_sp hor ht hts) hor.2.1 (c :: s') w hw
              (List.suffix_refl w)
            rwa [replaceAll_cons_neg p r c s' (by tauto)] at hh
          have hlen : s'.length ≤ n := by
            simp only [List.length_cons] at hs
            omega
          rw [hpref, IH s' hlen]
  exact fun s => main s.length s le_rfl

/-- Every character of `replaceAll p r s` comes from `s` or from `r`. -/
theorem mem_replaceAll {p r : List Char} :
    ∀ (s : List Char) (a : Char), a ∈ replaceAll p r s → a ∈ s ∨ a ∈ r := by
  have main : ∀ (n : ℕ) (s : List Char), s.length ≤ n →
      ∀ a, a ∈ replaceAll p r s → a ∈ s ∨ a ∈ r := by
    intro n
    induction n with
    | zero =>
      intro s hs
      have : s = [] := by cases s <;> simp_all
      subst this
      simp [replaceAll_nil]
    | succ n IH =>
      intro s hs a
      match s with
      | [] => simp [replaceAll_nil]
      | c :: s' =>
        by_cases hp : p ≠ [] ∧ p <+: c :: s'
        · rw [replaceAll_cons_pos p r c s' hp.1 hp.2]
          intro hmem
          rcases List.mem_append.mp hmem with hmr | hrec
          · exact Or.inr hmr
          · have hlen : ((c :: s').drop p.length).length ≤ n := by
              have hppos : 0 < p.length := List.length_pos.mpr hp.1
              simp only [List.length_drop, List.length_cons]
              simp only [List.length_cons] at hs
              omega
            rcases IH _ hlen a hrec with hin | hin
            · exact Or.inl (List.drop_subset _ _ hin)
            · exact Or.inr hin
        · rw [replaceAll_cons_neg p r c s' hp]
          intro hmem
          rcases List.mem_cons.mp hmem with rfl | hrec
          · exact Or.inl (List.mem_cons_self _ _)
          · have hlen : s'.length ≤ n := by
              simp only [List.length_cons] at hs; omega
            rcases IH s' hlen a hrec with hin | hin
            · exact Or.inl (List.mem_cons_of_mem _ hin)
            · exact Or.inr hin
  exact fun s a h => main s.length s le_rfl a h

theorem toL_append (a b : String) : toL (a ++ b) = toL a ++ toL b :=
  String.data_append a b

theorem occExtendL {u v : List Char} (a : List Char) (h : u <:+: v) : u <:+: a ++ v := by
  obtain ⟨s, t, hst⟩ := h
  exact ⟨a ++ s, t, by rw [← hst]; simp⟩

theorem occExtendR {u v : List Char} (b : List Char) (h : u <:+: v) : u <:+: v ++ b := by
  obtain ⟨s, t, hst⟩ := h
  exact ⟨s, t ++ b, by rw [← hst]; simp⟩

/-- A section's characters occur in the blank-line join of any section
list containing it. -/
theorem occJoinNN {s : String} : ∀ {l : List String}, s ∈ l → toL s <:+: toL (joinNN l) := by
  intro l
  induction l with
  | nil => intro h; cases h
  | cons x rest IH =>
    intro h
    match rest with
    | [] =>
      have : s = x := by simpa using h
      subst this
      exact ⟨[], [], by simp [joinNN]⟩
    | r :: t =>
      rcases List.mem_cons.mp h with rfl | hmem
      · refine ⟨[], toL ("\n\n" ++ joinNN (r :: t)), ?_⟩
        show [] ++ toL s ++ toL ("\n\n" ++ joinNN (r :: t)) = toL (joinNN (s :: r :: t))
        rw [show joinNN (s :: r :: t) = s ++ "\n\n" ++ joinNN (r :: t) from rfl]
        simp [toL_append]
      · have hrec := IH hmem
        rw [show joinNN (x :: r :: t) = x ++ "\n\n" ++ joinNN (r :: t) from rfl]
        rw [toL_append, toL_append]
        rw [List.append_assoc]
        exact occExtendL _ (occExtendL _ hrec)

/-- A character of the blank-line join comes from one of the sections
or is a newline. -/
theorem memJoinNN {c : Char} : ∀ {l : List String}, c ∈ toL (joinNN l) →
    (∃ s ∈ l, c ∈ toL s) ∨ c = '\n' := by
  intro l
  induction l with
  | nil => intro h; simp [joinNN, toL] at h
  | cons x rest IH =>
    intro h
    match rest with
    | [] =>
      exact Or.inl ⟨x, by simp, by simpa [joinNN] using h⟩
    | r :: t =>
      rw [show joinNN (x :: r :: t) = x ++ "\n\n" ++ joinNN (r :: t) from rfl] at h
      rw [toL_append, toL_append] at h
      rcases List.mem_append.mp h with h1 | h2
      · rcases List.mem_append.mp h1 with h3 | h4
        · exact Or.inl ⟨x, by simp, h3⟩
        · right
          have : toL "\n\n" = ['\n', '\n'] := rfl
          rw [this] at h4
          simpa using h4
      · rcases IH h2 with ⟨s, hs, hcs⟩ | hnl
        · exact Or.inl ⟨s, List.mem_cons_of_mem _ hs, hcs⟩
        · exact Or.inr hnl

/-- A character of a line join comes from one of the lines or is a
newline. -/
theorem memJoinNl {c : Char} : ∀ {l : List String}, c ∈ toL (joinNl l) →
    (∃ s ∈ l, c ∈ toL s) ∨ c = '\n' := by
  intro l
  induction l with
  | nil => intro h; simp [joinNl, toL] at h
  | cons x rest IH =>
    intro h
    match rest with
    | [] =>
      exact Or.inl ⟨x, by simp, by simpa [joinNl] using h⟩
    | r :: t =>
      rw [show joinNl (x :: r :: t) = x ++ "\n" ++ joinNl (r :: t) from rfl] at h
      rw [toL_append, toL_append] at h
      rcases List.mem_append.mp h with h1 | h2
      · rcases List.mem_append.mp h1 with h3 | h4
        · exact Or.inl ⟨x, by simp, h3⟩
        · right
          have : toL "\n" = ['\n'] := rfl
          rw [this] at h4
          simpa using h4
      · rcases IH h2 with ⟨s, hs, hcs⟩ | hnl
        · exact Or.inl ⟨s, List.mem_cons_of_mem _ hs, hcs⟩
        · exact Or.inr hnl

theorem subTrimL {s : List Char} : trimL s ⊆ s := by
  intro a ha
  unfold trimL at ha
  rw [List.mem_reverse] at ha
  have h1 := List.Sublist.subset (List.dropWhile_sublist _) ha
  rw [List.mem_reverse] at h1
  exact List.Sublist.subset (List.dropWhile_sublist _) h1

/-- An occurrence of a word whose first character is not whitespace
survives dropping leading whitespace. -/
theorem occDropWhileFront {w : List Char} {c0 : Char} {t0 : List Char}
    (hw : w = c0 :: t0) (hc : c0.isWhitespace = false) :
    ∀ s, w <:+: s → w <:+: s.dropWhile (fun c => c.isWhitespace) := by
  intro s h
  obtain ⟨a, b, hab⟩ := h
  rw [← List.takeWhile_append_dropWhile (fun c => c.isWhitespace) s] at hab
  rw [List.append_assoc] at hab
  have hTmem : ∀ x ∈ s.takeWhile (fun c => c.isWhitespace), x.isWhitespace = true :=
    fun x hx => List.mem_takeWhile_imp hx
  rcases List.append_eq_append_iff.mp hab with ⟨a', hT, hwb⟩ | ⟨c', ha, hD⟩
  · rcases List.append_eq_append_iff.mp hwb with ⟨a'', ha', hb⟩ | ⟨c'', hwsplit, hD2⟩
    · exfalso
      have hc0a : c0 ∈ a' := by
        rw [ha', hw]
        simp
      have hc0T : c0 ∈ s.takeWhile (fun c => c.isWhitespace) := by
        rw [hT]
        exact List.mem_append_right _ hc0a
      rw [hTmem c0 hc0T] at hc
      simp at hc
    · rcases eq_or_ne a' [] with rfl | hane
      · refine ⟨[], b, ?_⟩
        simp only [List.nil_append] at hwsplit ⊢
        rw [hwsplit, ← hD2]
      · exfalso
        have hpref : a' <+: w := ⟨c'', hwsplit.symm⟩
        have hc0a : c0 ∈ a' := by
          match a', hane with
          | d :: a'', _ =>
            rw [hw] at hpref
            have := (List.cons_prefix_cons.mp hpref).1
            subst this
            simp
        have hc0T : c0 ∈ s.takeWhile (fun c => c.isWhitespace) := by
          rw [hT]
          exact List.mem_append_right _ hc0a
        rw [hTmem c0 hc0T] at hc
        simp at hc
  · exact ⟨c', b, by rw [hD, ← List.append_assoc]⟩

/-- An occurrence of a word whose first and last characters are not
whitespace survives `strip()`. -/
theorem occTrimL {w : List Char} {c0 cL : Char} {t0 tL : List Char}
    (h1 : w = c0 :: t0) (h2 : w.reverse = cL :: tL)
    (hc0 : c0.isWhitespace = false) (hcL : cL.isWhitespace = false) :
    ∀ s, w <:+: s → w <:+: trimL s := by
  intro s h
  have hfront := occDropWhileFront h1 hc0 s h
  have hrev : w.reverse <:+: (s.dropWhile (fun c => c.isWhitespace)).reverse :=
    List.reverse_infix.mpr hfront
  have hback := occDropWhileFront h2 hcL _ hrev
  unfold trimL
  have hback' : w.reverse <:+:
      (((s.dropWhile (fun c => c.isWhitespace)).reverse.dropWhile
        (fun c => c.isWhitespace)).reverse).reverse := by
    simpa using hback
  exact List.reverse_infix.mp hback'

theorem pick_mem {items : List String} (h : items ≠ []) (g : Rng) :
    (pick items g).1 ∈ items := by
  have hl : 0 < items.length := List.length_pos.mpr h
  have hlt : (drawNat g).1 % items.length < items.length := Nat.mod_lt _ hl
  unfold pick
  simp only []
  rw [List.getD_eq_getElem?_getD, List.getElem?_eq_getElem hlt]
  simp [List.getElem_mem]

theorem perm_getD_eraseIdx : ∀ (xs : List String) (i : ℕ), i < xs.length →
    xs.Perm (xs.getD i "" :: xs.eraseIdx i) := by
  intro xs
  induction xs with
  | nil => intro i hi; simp at hi
  | cons a t IH =>
    intro i hi
    match i with
    | 0 => simp
    | Nat.succ j =>
      have hj : j < t.length := by simpa using hi
      have step := IH j hj
      have step2 : (a :: t).Perm (t.getD j "" :: a :: t.eraseIdx j) :=
        (step.cons a).trans (List.Perm.swap _ _ _)
      simpa using step2

theorem shuffleList_perm : ∀ (xs : List String) (g : Rng), ((shuffleList xs g).1).Perm xs := by
  have main : ∀ (n : ℕ) (xs : List String) (g : Rng), xs.length ≤ n →
      ((shuffleList xs g).1).Perm xs := by
    intro n
    induction n with
    | zero =>
      intro xs g hl
      have : xs = [] := by cases xs <;> simp_all
      subst this
      simp [shuffleList]
    | succ n IH =>
      intro xs g hl
      match xs with
      | [] => simp [shuffleList]
      | a :: t =>
        rw [shuffleList]
        have hi : (drawNat g).1 % (a :: t).length < (a :: t).length :=
          Nat.mod_lt _ (by simp)
        have hlen : ((a :: t).eraseIdx ((drawNat g).1 % (a :: t).length)).length ≤ n := by
          rw [List.length_eraseIdx, if_pos hi]
          simp only [List.length_cons] at hl ⊢
          omega
        have hrec := IH ((a :: t).eraseIdx ((drawNat g).1 % (a :: t).length)) (drawNat g).2 hlen
        exact (hrec.cons _).trans (perm_getD_eraseIdx (a :: t) _ hi).symm
  exact fun xs g => main xs.length xs g le_rfl

theorem lvl3_mem {α : Type} [LinearOrder α] (x a b : α) (low mid high : String) :
    lvl3 x a b low mid high = low ∨ lvl3 x a b low mid high = mid ∨
      lvl3 x a b low mid high = high := by
  unfold lvl3
  split_ifs <;> simp

/-! ### Numeric lemmas about the scorer -/

theorem clamp01_nonneg {x : ℝ} : 0 ≤ clamp x 0 1 := le_max_left 0 _

theorem clamp01_le_one {x : ℝ} : clamp x 0 1 ≤ 1 :=
  max_le (by norm_num) (min_le_left 1 x)

theorem clamp01_eq {x : ℝ} (h0 : 0 ≤ x) (h1 : x ≤ 1) : clamp x 0 1 = x := by
  unfold clamp
  rw [min_eq_right h1, max_eq_right h0]

theorem sat_nonneg {t k : ℝ} (ht : 0 ≤ t) (hk : 0 < k) :
    0 ≤ 1 - Real.exp (-t / k) := by
  have h1 : Real.exp (-t / k) ≤ 1 := by
    rw [Real.exp_le_one_iff, neg_div]
    have : 0 ≤ t / k := div_nonneg ht hk.le
    linarith
  linarith

theorem sat_lt_one {t k : ℝ} : 1 - Real.exp (-t / k) < 1 := by
  linarith [Real.exp_pos (-t / k)]

theorem sigmoid_pos (x : ℝ) : 0 < sigmoid x := by
  unfold sigmoid
  positivity

theorem sigmoid_lt_one (x : ℝ) : sigmoid x < 1 := by
  unfold sigmoid
  rw [div_lt_one (by positivity)]
  linarith [Real.exp_pos (-x)]

theorem sigmoid_zero : sigmoid 0 = 1 / 2 := by
  unfold sigmoid
  rw [neg_zero, Real.exp_zero]
  norm_num

theorem sigmoid_strictMono {x y : ℝ} (h : x < y) : sigmoid x < sigmoid y := by
  unfold sigmoid
  apply one_div_lt_one_div_of_lt
  · positivity
  · have : Real.exp (-y) < Real.exp (-x) := Real.exp_lt_exp.mpr (by linarith)
    linarith

theorem cm_n (arts : List Article) : (compute_metrics arts).n = arts.length := rfl

theorem cm_precip (arts : List Article) : (compute_metrics arts).precipitation =
    clamp (1 - Real.exp (-(arts.length : ℝ) / 6)) 0 1 := rfl

theorem cm_wind (arts : List Article) : (compute_metrics arts).wind =
    clamp (sigmoid (((arts.length : ℝ) - 4) * 0.7)) 0 1 := rfl

theorem cm_press (arts : List Article) : (compute_metrics arts).pressure =
    clamp (1 - Real.exp
      (-(((arts.filterMap truthyCountry).dedup.length : ℝ)) / 4)) 0 1 := rfl

theorem cm_temp (arts : List Article) : (compute_metrics arts).temperature =
    clamp (0.55 * (compute_metrics arts).precipitation +
      0.30 * (compute_metrics arts).wind +
      0.15 * (compute_metrics arts).pressure) 0 1 := rfl

theorem cm_conf (arts : List Article) : (compute_metrics arts).confidence =
    clamp (1 - Real.exp (-(arts.length : ℝ) / 5.5)) 0 1 := rfl

theorem precip_eq (arts : List Article) : (compute_metrics arts).precipitation =
    1 - Real.exp (-(arts.length : ℝ) / 6) := by
  rw [cm_precip]
  exact clamp01_eq (sat_nonneg (by positivity) (by norm_num)) sat_lt_one.le

theorem wind_eq (arts : List Article) : (compute_metrics arts).wind =
    sigmoid (((arts.length : ℝ) - 4) * 0.7) := by
  rw [cm_wind]
  exact clamp01_eq (sigmoid_pos _).le (sigmoid_lt_one _).le

theorem press_eq (arts : List Article) : (compute_metrics arts).pressure =
    1 - Real.exp (-(((arts.filterMap truthyCountry).dedup.length : ℝ)) / 4) := by
  rw [cm_press]
  exact clamp01_eq (sat_nonneg (by positivity) (by norm_num)) sat_lt_one.le

theorem conf_eq (arts : List Article) : (compute_metrics arts).confidence =
    1 - Real.exp (-(arts.length : ℝ) / 5.5) := by
  rw [cm_conf]
  exact clamp01_eq (sat_nonneg (by positivity) (by norm_num)) sat_lt_one.le

/-! ### Claim theorems for the scorer -/

/-- C1.  Qualitative leveling (`lvl3`) is a pure threshold comparison
under the half-open `[a, b)` convention: with thresholds `(0.25, 0.6)`,
a metric of `0.24` maps to the low label, `0.25` and `0.59` to the
medium label, `0.60` to the high label, and in general every metric
below `0.25` maps low, every metric in `[0.25, 0.6)` maps medium, and
every metric at or above `0.6` maps high. -/
theorem claim1_leveling :
    (∀ (low mid high : String),
      lvl3 (0.24 : ℚ) 0.25 0.6 low mid high = low ∧
      lvl3 (0.25 : ℚ) 0.25 0.6 low mid high = mid ∧
      lvl3 (0.59 : ℚ) 0.25 0.6 low mid high = mid ∧
      lvl3 (0.60 : ℚ) 0.25 0.6 low mid high = high) ∧
    (∀ (x : ℚ) (low mid high : String),
      (x < 0.25 → lvl3 x 0.25 0.6 low mid high = low) ∧
      (0.25 ≤ x → x < 0.6 → lvl3 x 0.25 0.6 low mid high = mid) ∧
      (0.6 ≤ x → lvl3 x 0.25 0.6 low mid high = high)) := by
  constructor
  · intro low mid high
    refine ⟨?_, ?_, ?_, ?_⟩ <;> (unfold lvl3; norm_num)
  · intro x low mid high
    refine ⟨?_, ?_, ?_⟩
    · intro hx
      unfold lvl3
      rw [if_pos hx]
    · intro hx1 hx2
      unfold lvl3
      rw [if_neg (not_lt.mpr hx1), if_pos hx2]
    · intro hx
      unfold lvl3
      rw [if_neg (by linarith), if_neg (not_lt.mpr hx)]

/-- Witness for C1 at concrete metrics. -/
theorem claim1_w :
    lvl3 (0 : ℚ) 0.25 0.6 "a" "b" "c" = "a" ∧
    lvl3 (0.3 : ℚ) 0.25 0.6 "a" "b" "c" = "b" ∧
    lvl3 (0.7 : ℚ) 0.25 0.6 "a" "b" "c" = "c" :=
  ⟨(claim1_leveling.2 0 "a" "b" "c").1 (by norm_num),
   (claim1_leveling.2 0.3 "a" "b" "c").2.1 (by norm_num) (by norm_num),
   (claim1_leveling.2 0.7 "a" "b" "c").2.2 (by norm_num)⟩

/-- C2, counterexample.  On the empty observation list the wind score
is not `0`: it is the logistic at `(0 - 4) * 0.7 = -2.8`, which is
strictly positive. -/
theorem claim2_cex : (compute_metrics ([] : List Article)).wind ≠ 0 := by
  rw [wind_eq]
  exact (ne_of_gt (sigmoid_pos _))

/-- C2, as amended.  On the empty observation list the scorer returns
`0` for precipitation, pressure and confidence; the wind score equals
the fixed-offset logistic at count `0`, `sigmoid (-2.8) = 1/(1+e^2.8) >
0`, and the composite temperature is the weighted sum `0.30 * wind`
(precipitation and pressure contributing `0`). -/
theorem claim2_amended :
    (compute_metrics ([] : List Article)).precipitation = 0 ∧
    (compute_metrics ([] : List Article)).pressure = 0 ∧
    (compute_metrics ([] : List Article)).confidence = 0 ∧
    (compute_metrics ([] : List Article)).wind = sigmoid (-2.8) ∧
    0 < (compute_metrics ([] : List Article)).wind ∧
    (compute_metrics ([] : List Article)).temperature =
      0.30 * (compute_metrics ([] : List Article)).wind := by
  have hp : (compute_metrics ([] : List Article)).precipitation = 0 := by
    rw [precip_eq]
    norm_num
  have hpr : (compute_metrics ([] : List Article)).pressure = 0 := by
    rw [press_eq]
    norm_num
  have hc : (compute_metrics ([] : List Article)).confidence = 0 := by
    rw [conf_eq]
    norm_num
  have hw : (compute_metrics ([] : List Article)).wind = sigmoid (-2.8) := by
    rw [wind_eq]
    norm_num
  have hwpos : 0 < (compute_metrics ([] : List Article)).wind := by
    rw [hw]
    exact sigmoid_pos _
  have hwlt : (compute_metrics ([] : List Article)).wind < 1 := by
    rw [hw]
    exact sigmoid_lt_one _
  refine ⟨hp, hpr, hc, hw, hwpos, ?_⟩
  rw [cm_temp, hp, hpr]
  rw [show (0.55 : ℝ) * 0 + 0.30 * (compute_metrics ([] : List Article)).wind + 0.15 * 0 =
    0.30 * (compute_metrics ([] : List Article)).wind from by ring]
  exact clamp01_eq (by linarith) (by linarith)

/-- C3.  Every bounded field of the scorer's output lies in `[0, 1]`
for every input list, and the composite temperature equals the fixed
convex combination of the already-clamped sub-metrics (the final clamp
is the identity on it). -/
theorem claim3_bounds : ∀ arts : List Article,
    (0 ≤ (compute_metrics arts).precipitation ∧ (compute_metrics arts).precipitation ≤ 1) ∧
    (0 ≤ (compute_metrics arts).wind ∧ (compute_metrics arts).wind ≤ 1) ∧
    (0 ≤ (compute_metrics arts).pressure ∧ (compute_metrics arts).pressure ≤ 1) ∧
    (0 ≤ (compute_metrics arts).temperature ∧ (compute_metrics arts).temperature ≤ 1) ∧
    (0 ≤ (compute_metrics arts).confidence ∧ (compute_metrics arts).confidence ≤ 1) ∧
    (compute_metrics arts).temperature =
      0.55 * (compute_metrics arts).precipitation + 0.30 * (compute_metrics arts).wind +
        0.15 * (compute_metrics arts).pressure := by
  intro arts
  have hp := cm_precip arts
  have hw := cm_wind arts
  have hpr := cm_press arts
  have h1 : 0 ≤ (compute_metrics arts).precipitation := by rw [hp]; exact clamp01_nonneg
  have h2 : (compute_metrics arts).precipitation ≤ 1 := by rw [hp]; exact clamp01_le_one
  have h3 : 0 ≤ (compute_metrics arts).wind := by rw [hw]; exact clamp01_nonneg
  have h4 : (compute_metrics arts).wind ≤ 1 := by rw [hw]; exact clamp01_le_one
  have h5 : 0 ≤ (compute_metrics arts).pressure := by rw [hpr]; exact clamp01_nonneg
  have h6 : (compute_metrics arts).pressure ≤ 1 := by rw [hpr]; exact clamp01_le_one
  have htemp : (compute_metrics arts).temperature =
      0.55 * (compute_metrics arts).precipitation + 0.30 * (compute_metrics arts).wind +
        0.15 * (compute_metrics arts).pressure := by
    rw [cm_temp]
    exact clamp01_eq (by nlinarith) (by nlinarith)
  refine ⟨⟨h1, h2⟩, ⟨h3, h4⟩, ⟨h5, h6⟩, ⟨?_, ?_⟩, ⟨?_, ?_⟩, htemp⟩
  · rw [cm_temp]; exact clamp01_nonneg
  · rw [cm_temp]; exact clamp01_le_one
  · rw [cm_conf]; exact clamp01_nonneg
  · rw [cm_conf]; exact clamp01_le_one

/-- C5.  The composite temperature is the fixed weighted sum
`0.55·precipitation + 0.30·wind + 0.15·pressure` (then clamped, which
on those weights is the identity); the weights sum to `1`, the
weighted sum of all-zero sub-metrics is `0` and of all-one sub-metrics
is `1`. -/
theorem claim5_composite :
    ((0.55 : ℝ) + 0.30 + 0.15 = 1) ∧
    (∀ arts : List Article, (compute_metrics arts).temperature =
      clamp (0.55 * (compute_metrics arts).precipitation +
        0.30 * (compute_metrics arts).wind +
        0.15 * (compute_metrics arts).pressure) 0 1) ∧
    clamp ((0.55 : ℝ) * 0 + 0.30 * 0 + 0.15 * 0) 0 1 = 0 ∧
    clamp ((0.55 : ℝ) * 1 + 0.30 * 1 + 0.15 * 1) 0 1 = 1 := by
  refine ⟨by norm_num, fun arts => cm_temp arts, ?_, ?_⟩
  · rw [show (0.55 : ℝ) * 0 + 0.30 * 0 + 0.15 * 0 = 0 from by ring]
    exact clamp01_eq le_rfl (by norm_num)
  · rw [show (0.55 : ℝ) * 1 + 0.30 * 1 + 0.15 * 1 = 1 from by ring]
    exact clamp01_eq (by norm_num) le_rfl

/-- C6.  The precipitation score is the saturating volume transform
`1 - e^(-n/6)` of the raw count: it is strictly increasing in the
count, exactly `0` at count `0`, and strictly below `1` for every
count. -/
theorem claim6_saturating :
    (∀ arts : List Article, (compute_metrics arts).precipitation =
      1 - Real.exp (-(arts.length : ℝ) / 6)) ∧
    (∀ a1 a2 : List Article, a1.length < a2.length →
      (compute_metrics a1).precipitation < (compute_metrics a2).precipitation) ∧
    (∀ arts : List Article, arts.length = 0 → (compute_metrics arts).precipitation = 0) ∧
    (∀ arts : List Article, (compute_metrics arts).precipitation < 1) := by
  refine ⟨precip_eq, ?_, ?_, ?_⟩
  · intro a1 a2 hlen
    rw [precip_eq, precip_eq]
    have hx : -(a2.length : ℝ) / 6 < -(a1.length : ℝ) / 6 := by
      have : (a1.length : ℝ) < (a2.length : ℝ) := by exact_mod_cast hlen
      linarith
    have := Real.exp_lt_exp.mpr hx
    linarith
  · intro arts hlen
    rw [precip_eq, hlen]
    norm_num
  · intro arts
    rw [precip_eq]
    exact sat_lt_one

/-- Witness for C6 at concrete lists. -/
theorem claim6_w :
    (compute_metrics ([] : List Article)).precipitation <
      (compute_metrics [sampleArticle]).precipitation ∧
    (compute_metrics ([] : List Article)).precipitation = 0 :=
  ⟨claim6_saturating.2.1 [] [sampleArticle] (by simp),
   claim6_saturating.2.2.1 [] rfl⟩

/-- C7.  The wind score is the fixed-offset logistic
`1/(1 + e^(-0.7·(n-4)))` of the 24h count: exactly `1/2` at the
neutral center `n = 4`, strictly increasing in the count, and always
strictly between `0` and `1`. -/
theorem claim7_logistic :
    (∀ arts : List Article, (compute_metrics arts).wind =
      sigmoid (((arts.length : ℝ) - 4) * 0.7)) ∧
    (∀ arts : List Article, arts.length = 4 → (compute_metrics arts).wind = 1 / 2) ∧
    (∀ a1 a2 : List Article, a1.length < a2.length →
      (compute_metrics a1).wind < (compute_metrics a2).wind) ∧
    (∀ arts : List Article, 0 < (compute_metrics arts).wind ∧
      (compute_metrics arts).wind < 1) := by
  refine ⟨wind_eq, ?_, ?_, ?_⟩
  · intro arts hlen
    rw [wind_eq, hlen]
    rw [show (((4 : ℕ) : ℝ) - 4) * 0.7 = 0 from by norm_num]
    exact sigmoid_zero
  · intro a1 a2 hlen
    rw [wind_eq, wind_eq]
    apply sigmoid_strictMono
    have : (a1.length : ℝ) < (a2.length : ℝ) := by exact_mod_cast hlen
    nlinarith
  · intro arts
    rw [wind_eq]
    exact ⟨sigmoid_pos _, sigmoid_lt_one _⟩

/-- Witness for C7 at concrete lists. -/
theorem claim7_w :
    (compute_metrics (List.replicate 4 sampleArticle)).wind = 1 / 2 ∧
    (compute_metrics ([] : List Article)).wind < (compute_metrics [sampleArticle]).wind :=
  ⟨claim7_logistic.2.1 _ (by simp),
   claim7_logistic.2.2.1 [] [sampleArticle] (by simp)⟩

/-- C4.  The synthesizer is a pure function of the city, metrics,
article list and randomness-source state: two runs from equal states
(same stream of draws, same position) produce the same report string
byte for byte. -/
theorem claim4_determinism : ∀ (city : String) (m : Metrics) (arts : List Article)
    (g1 g2 : Rng), g1.stream = g2.stream → g1.pos = g2.pos →
    build_message city m arts g1 = build_message city m arts g2 := by
  intro city m arts g1 g2 hs hp
  cases g1
  cases g2
  simp only [] at hs hp
  subst hs
  subst hp
  rfl

/-- Witness for C4 at a concrete seed and input. -/
theorem claim4_w :
    build_message "Tallinn" ⟨0, 0, 0, 0, 0, 0⟩ [] ⟨fun _ => 0, 0⟩ =
      build_message "Tallinn" ⟨0, 0, 0, 0, 0, 0⟩ [] ⟨fun _ => 0, 0⟩ :=
  claim4_determinism "Tallinn" ⟨0, 0, 0, 0, 0, 0⟩ [] ⟨fun _ => 0, 0⟩ ⟨fun _ => 0, 0⟩ rfl rfl

/-! ### The lexical mutation pass and the level labels -/

theorem patNonempty : pat24 ≠ [] ∧ repPosled ≠ [] ∧ patSutki ≠ [] ∧
    patObsh ≠ [] ∧ repPubl ≠ [] := by decide

/-- No level label can overlap any pattern or replacement of the
mutation pass (checked by computation). -/
theorem labelBatch : ∀ w ∈ labelStrings, w ≠ [] ∧ noOverlap w pat24 ∧
    noOverlap w repPosled ∧ noOverlap w patSutki ∧ noOverlap w patObsh ∧
    noOverlap w repPubl := by decide

/-- The mutation pass preserves occurrences of any word that cannot
overlap its patterns and replacements, whatever the two Bernoulli
outcomes. -/
theorem mutateKeep {w : List Char} (hw : w ≠ []) (h1 : noOverlap w pat24)
    (h2 : noOverlap w repPosled) (h3 : noOverlap w patSutki)
    (h4 : noOverlap w patObsh) (h5 : noOverlap w repPubl) :
    ∀ (b1 b2 : Bool) (t : List Char), (w <:+: mutatePass b1 b2 t ↔ w <:+: t) := by
  intro b1 b2 t
  unfold mutatePass
  have k1 := occKeep hw patNonempty.1 patNonempty.2.1 h1 h2
  have k2 := occKeep hw patNonempty.2.2.1 patNonempty.1 h3 h1
  have k3 := occKeep hw patNonempty.2.2.2.1 patNonempty.2.2.2.2 h4 h5
  cases b1 <;> cases b2 <;> simp only [ite_true, ite_false, Bool.false_eq_true,
    if_true, if_false, k1, k2, k3]

/-- C8.  The lexical mutation pass never changes which qualitative
level labels occur in the text: for every text and every outcome of the
two mutation draws, each label occurs in the mutated text exactly when
it occurs in the original, so the set of occurring labels is unchanged
(in particular a report without the high label cannot gain it). -/
theorem claim8_mutation : ∀ (b1 b2 : Bool) (t w : List Char), w ∈ labelStrings →
    (w <:+: mutatePass b1 b2 t ↔ w <:+: t) := by
  intro b1 b2 t w hw
  have h := labelBatch w hw
  exact mutateKeep h.1 h.2.1 h.2.2.1 h.2.2.2.1 h.2.2.2.2.1 h.2.2.2.2.2 b1 b2 t

/-- Witness for C8: the label `"низкая"` on a concrete text through
concrete mutation outcomes. -/
theorem claim8_w :
    (toL "низкая" ∈ labelStrings) ∧
    ((toL "низкая" <:+: mutatePass true true (toL "оценка за 24 часа: низкая")) ↔
      toL "низкая" <:+: toL "оценка за 24 часа: низкая") :=
  ⟨by decide, claim8_mutation true true (toL "оценка за 24 часа: низкая")
    (toL "низкая") (by decide)⟩

/-- C9.  Whenever the evidence block is appended (the Bernoulli draw
succeeded), it is appended as the last section, and its bullet list has
exactly `min (number of supplied articles) 6` entries, the `i`-th entry
rendering the `i`-th supplied article as its title line followed by its
locator, in the order supplied. -/
theorem claim9_evidence : ∀ (arts : List Article) (b : Bool) (secs : List String),
    b = true →
    appendEvidence arts b secs = secs ++ [evidenceBlock arts] ∧
    (evidenceLines arts).length = min arts.length 6 ∧
    (∀ i : ℕ, i < (evidenceLines arts).length →
      ∃ a : Article, arts[i]? = some a ∧
        (evidenceLines arts)[i]? = some ("• " ++ a.title ++ "\n  " ++ a.url)) := by
  intro arts b secs hb
  subst hb
  refine ⟨rfl, ?_, ?_⟩
  · unfold evidenceLines
    rw [List.length_map, List.length_take]
    exact Nat.min_comm 6 arts.length
  · intro i hi
    unfold evidenceLines at hi ⊢
    rw [List.length_map, List.length_take] at hi
    have hia : i < arts.length := lt_of_lt_of_le hi (min_le_right _ _)
    have hi6 : i < 6 := lt_of_lt_of_le hi (min_le_left _ _)
    refine ⟨arts[i], List.getElem?_eq_getElem hia, ?_⟩
    rw [List.getElem?_map, List.getElem?_take, if_pos hi6,
      List.getElem?_eq_getElem hia]
    rfl

/-- Witness for C9: seven concrete articles, evidence draw succeeded. -/
theorem claim9_w :
    appendEvidence (List.replicate 7 sampleArticle) true ["s"] =
      ["s"] ++ [evidenceBlock (List.replicate 7 sampleArticle)] ∧
    (evidenceLines (List.replicate 7 sampleArticle)).length =
      min (List.replicate 7 sampleArticle).length 6 ∧
    (∀ i : ℕ, i < (evidenceLines (List.replicate 7 sampleArticle)).length →
      ∃ a : Article, (List.replicate 7 sampleArticle)[i]? = some a ∧
        (evidenceLines (List.replicate 7 sampleArticle))[i]? =
          some ("• " ++ a.title ++ "\n  " ++ a.url)) :=
  claim9_evidence (List.replicate 7 sampleArticle) true ["s"] rfl

/-! ### Character tracking through the synthesizer (for C10) -/

/-- The evidence-block marker character; it occurs in no template pool,
so its presence in a report pinpoints the evidence block. -/
def newsEmoji : Char := '📰'

theorem memSubst {a : Char} {tpl ph v : String} (h : a ∈ toL (subst tpl ph v)) :
    a ∈ toL tpl ∨ a ∈ toL v :=
  mem_replaceAll _ a h

theorem freeAppend {c : Char} {a b : String} (ha : c ∉ toL a) (hb : c ∉ toL b) :
    c ∉ toL (a ++ b) := by
  rw [toL_append]
  intro h
  rcases List.mem_append.mp h with h1 | h2
  · exact ha h1
  · exact hb h2

theorem freePick {c : Char} {pool : List String} (hpool : ∀ s ∈ pool, c ∉ toL s)
    (hne : pool ≠ []) (g : Rng) : c ∉ toL (pick pool g).1 :=
  hpool _ (pick_mem hne g)

theorem freeSubst {c : Char} {tpl ph v : String} (ht : c ∉ toL tpl) (hv : c ∉ toL v) :
    c ∉ toL (subst tpl ph v) :=
  fun h => (memSubst h).elim ht hv

theorem words_precip_mem (m : Metrics) :
    (words m).precip ∈ (["низкая", "умеренная", "высокая"] : List String) := by
  have he : (words m).precip =
      lvl3 m.precipitation 0.25 0.65 "низкая" "умеренная" "высокая" := rfl
  rw [he]
  rcases lvl3_mem m.precipitation 0.25 0.65 "низкая" "умеренная" "высокая" with h | h | h <;>
    simp [h]

theorem words_wind_mem (m : Metrics) :
    (words m).wind ∈ (["слабый", "заметный", "порывистый"] : List String) := by
  have he : (words m).wind =
      lvl3 m.wind 0.25 0.65 "слабый" "заметный" "порывистый" := rfl
  rw [he]
  rcases lvl3_mem m.wind 0.25 0.65 "слабый" "заметный" "порывистый" with h | h | h <;>
    simp [h]

theorem words_press_mem (m : Metrics) :
    (words m).press ∈ (["спокойное", "переменное", "нестабильное"] : List String) := by
  have he : (words m).press =
      lvl3 m.pressure 0.25 0.65 "спокойное" "переменное" "нестабильное" := rfl
  rw [he]
  rcases lvl3_mem m.pressure 0.25 0.65 "спокойное" "переменное" "нестабильное" with h | h | h <;>
    simp [h]

theorem words_temp_mem (m : Metrics) :
    (words m).temp ∈ (["прохладная", "тёплая", "горячая", "перегретая"] : List String) := by
  have he : (words m).temp = if m.temperature > 0.88 then "перегретая"
      else lvl3 m.temperature 0.30 0.75 "прохладная" "тёплая" "горячая" := rfl
  rw [he]
  split_ifs
  · simp
  · rcases lvl3_mem m.temperature 0.30 0.75 "прохладная" "тёплая" "горячая" with h | h | h <;>
      simp [h]

theorem words_conf_mem (m : Metrics) :
    (words m).conf ∈ (["низкая", "средняя", "высокая"] : List String) := by
  have he : (words m).conf =
      lvl3 m.confidence 0.35 0.75 "низкая" "средняя" "высокая" := rfl
  rw [he]
  rcases lvl3_mem m.confidence 0.35 0.75 "низкая" "средняя" "высокая" with h | h | h <;>
    simp [h]

theorem buildTop_free {c : Char} (mode title voice opener : String) (g : Rng)
    (ht : c ∉ toL title) (hv : c ∉ toL voice) (ho : c ∉ toL opener)
    (hradio : c ∉ toL "📻 ")
    (hdry : c ∉ toL "Сводка за сутки по публичным сигналам.")
    (hnl : c ∉ toL "\n")
    (hpoet : c ∉ toL "\nСегодня воздух пахнет словами.")
    (hphil : c ∉ toL "\nГлавное — не путать громкость с правдой.") :
    ∀ s ∈ (buildTop mode title voice opener g).1, c ∉ toL s := by
  intro s hs
  simp only [buildTop] at hs
  split_ifs at hs <;>
    simp only [List.mem_append, List.mem_cons, List.mem_singleton,
      List.not_mem_nil, or_false, List.cons_append, List.nil_append] at hs
  · rcases hs with rfl | rfl | rfl
    · simp only [toL_append, List.mem_append, not_or]
      exact ⟨hradio, ht⟩
    · exact hv
    · exact ho
  · rcases hs with rfl | rfl
    · simp only [toL_append, List.mem_append, not_or]
      exact ⟨hradio, ht⟩
    · exact hv
  · rcases hs with rfl | rfl
    · exact ht
    · exact hdry
  · rcases hs with rfl
    simp only [toL_append, List.mem_append, not_or]
    tauto
  · rcases hs with rfl
    simp only [toL_append, List.mem_append, not_or]
    tauto
  · rcases hs with rfl | rfl
    · simp only [toL_append, List.mem_append, not_or]
      tauto
    · exact ho
  · rcases hs with rfl
    simp only [toL_append, List.mem_append, not_or]
    tauto

theorem buildTrio_mem (morning day evening : String) (g : Rng) :
    ∀ s ∈ (buildTrio morning day evening g).1,
      s = morning ∨ s = day ∨ s = evening := by
  intro s hs
  have ht1 : ∀ x ∈ (trioShuffle morning day evening g).1,
      x = morning ∨ x = day ∨ x = evening := by
    intro x hx
    simp only [trioShuffle] at hx
    split at hx
    · have := (shuffleList_perm _ _).mem_iff.mp hx
      simpa using this
    · simpa using hx
  simp only [buildTrio] at hs
  split at hs
  · rcases List.mem_append.mp hs with h1 | h2
    · exact ht1 s (List.mem_of_mem_filter h1)
    · right; right; simpa using h2
  · exact ht1 s hs

theorem buildTail_mem (mb rb cb : String) (g : Rng) :
    ∀ s ∈ (buildTail mb rb cb g).1, s = mb ∨ s = rb ∨ s = cb := by
  intro s hs
  simp only [buildTail] at hs
  have := (shuffleList_perm _ _).mem_iff.mp hs
  rcases List.mem_append.mp this with h1 | h2
  · rcases List.mem_cons.mp h1 with rfl | h1'
    · exact Or.inl rfl
    · right; left; simpa using h1'
  · right; right
    revert h2
    split <;> simp

theorem buildTail_radar (mb rb cb : String) (g : Rng) :
    rb ∈ (buildTail mb rb cb g).1 := by
  simp only [buildTail]
  apply (shuffleList_perm _ _).mem_iff.mpr
  simp

theorem maybeSection_mem {p : ℚ} {pool : List String} (hne : pool ≠ []) (g : Rng) :
    ∀ s ∈ (maybeSection p pool g).1, s ∈ pool := by
  intro s hs
  simp only [maybeSection] at hs
  split at hs
  · have : s = (pick pool (maybe p g).2).1 := by simpa using hs
    rw [this]
    exact pick_mem hne _
  · simp at hs

theorem sectionsCore_radar (mode title voice opener morning day evening mb rb cb final :
    String) (g : Rng) :
    rb ∈ (sectionsCore mode title voice opener morning day evening mb rb cb final g).1 := by
  simp only [sectionsCore]
  split
  · simp
  · have h := buildTail_radar mb rb cb
      (buildTrio morning day evening (buildTop mode title voice opener g).2).2
    simp only [List.mem_append]
    tauto

theorem sectionsCore_free {c : Char} (mode title voice opener morning day evening mb rb cb
    final : String) (g : Rng)
    (ht : c ∉ toL title) (hv : c ∉ toL voice) (ho : c ∉ toL opener)
    (hm : c ∉ toL morning) (hd : c ∉ toL day) (he : c ∉ toL evening)
    (hmb : c ∉ toL mb) (hrb : c ∉ toL rb) (hcb : c ∉ toL cb) (hf : c ∉ toL final)
    (hasides : ∀ s ∈ ASIDES, c ∉ toL s) (hmicro : ∀ s ∈ MICRO_SECTIONS, c ∉ toL s)
    (hradio : c ∉ toL "📻 ")
    (hdry : c ∉ toL "Сводка за сутки по публичным сигналам.")
    (hnl : c ∉ toL "\n")
    (hpoet : c ∉ toL "\nСегодня воздух пахнет словами.")
    (hphil : c ∉ toL "\nГлавное — не путать громкость с правдой.") :
    ∀ s ∈ (sectionsCore mode title voice opener morning day evening mb rb cb final g).1,
      c ∉ toL s := by
  intro s hs
  simp only [sectionsCore] at hs
  split at hs
  · simp only [List.cons_append, List.nil_append, List.mem_cons] at hs
    rcases hs with rfl | rfl | hs'
    · exact ht
    · exact hrb
    · revert hs'
      split <;> intro hs' <;>
        simp only [List.cons_append, List.nil_append, List.mem_cons,
          List.mem_singleton, List.not_mem_nil, or_false] at hs'
      · rcases hs' with rfl | rfl
        · exact hmb
        · exact hf
      · rcases hs' with rfl
        exact hf
  · simp only [List.mem_append, List.mem_singleton] at hs
    rcases hs with ((((htop | htrio) | htail) | he1) | he2) | rfl
    · exact buildTop_free mode title voice opener _ ht hv ho hradio hdry hnl hpoet hphil s htop
    · rcases buildTrio_mem morning day evening _ s htrio with rfl | rfl | rfl
      · exact hm
      · exact hd
      · exact he
    · rcases buildTail_mem mb rb cb _ s htail with rfl | rfl | rfl
      · exact hmb
      · exact hrb
      · exact hcb
    · exact hasides s (maybeSection_mem (by decide) _ s he1)
    · exact hmicro s (maybeSection_mem (by decide) _ s he2)
    · exact hf

theorem buildSections_free (city : String) (m : Metrics) (g : Rng)
    (hcity : newsEmoji ∉ toL city) (hn : newsEmoji ∉ toL (toString m.n)) :
    ∀ s ∈ (buildSections city m g).1, newsEmoji ∉ toL s := by
  have hA : ∀ s ∈ ANCHORS, newsEmoji ∉ toL s := by decide
  have hV : ∀ s ∈ VOICE_TAGS, newsEmoji ∉ toL s := by decide
  have hO : ∀ s ∈ OPENERS, newsEmoji ∉ toL s := by decide
  have hMT : ∀ s ∈ MORNING_TEMPLATES, newsEmoji ∉ toL s := by decide
  have hPH : ∀ s ∈ PHENOMENA, newsEmoji ∉ toL s := by decide
  have hDS : ∀ s ∈ DESCS, newsEmoji ∉ toL s := by decide
  have hDT : ∀ s ∈ DAY_TEMPLATES, newsEmoji ∉ toL s := by decide
  have hDE : ∀ s ∈ DAY_EVENTS, newsEmoji ∉ toL s := by decide
  have hAD : ∀ s ∈ ADVICES, newsEmoji ∉ toL s := by decide
  have hET : ∀ s ∈ EVENING_TEMPLATES, newsEmoji ∉ toL s := by decide
  have hEV : ∀ s ∈ EVENINGS, newsEmoji ∉ toL s := by decide
  have hED : ∀ s ∈ EVENING_DESCS, newsEmoji ∉ toL s := by decide
  have hMTP : ∀ s ∈ METRIC_TEMPLATES, newsEmoji ∉ toL s := by decide
  have hRH : ∀ s ∈ RADAR_HEADERS, newsEmoji ∉ toL s := by decide
  have hRL : ∀ s ∈ RADAR_LINES, newsEmoji ∉ toL s := by decide
  have hCT : ∀ s ∈ CONF_TEMPLATES, newsEmoji ∉ toL s := by decide
  have hAS : ∀ s ∈ ASIDES, newsEmoji ∉ toL s := by decide
  have hFI : ∀ s ∈ FINALS, newsEmoji ∉ toL s := by decide
  have hMI : ∀ s ∈ MICRO_SECTIONS, newsEmoji ∉ toL s := by decide
  have hlvT : newsEmoji ∉ toL (words m).temp := by
    have hh : ∀ s ∈ (["прохладная", "тёплая", "горячая", "перегретая"] : List String),
        newsEmoji ∉ toL s := by decide
    exact hh _ (words_temp_mem m)
  have hlvW : newsEmoji ∉ toL (words m).wind := by
    have hh : ∀ s ∈ (["слабый", "заметный", "порывистый"] : List String),
        newsEmoji ∉ toL s := by decide
    exact hh _ (words_wind_mem m)
  have hlvP : newsEmoji ∉ toL (words m).press := by
    have hh : ∀ s ∈ (["спокойное", "переменное", "нестабильное"] : List String),
        newsEmoji ∉ toL s := by decide
    exact hh _ (words_press_mem m)
  have hlvC : newsEmoji ∉ toL (words m).conf := by
    have hh : ∀ s ∈ (["низкая", "средняя", "высокая"] : List String),
        newsEmoji ∉ toL s := by decide
    exact hh _ (words_conf_mem m)
  simp only [buildSections]
  apply sectionsCore_free
  · exact freeAppend (freeAppend (freePick hA (by decide) _) (by decide)) hcity
  · exact freePick hV (by decide) _
  · exact freePick hO (by decide) _
  · exact freeSubst (freeSubst (freePick hMT (by decide) _) (freePick hPH (by decide) _))
      (freePick hDS (by decide) _)
  · exact freeSubst (freeSubst (freePick hDT (by decide) _) (freePick hDE (by decide) _))
      (freePick hAD (by decide) _)
  · exact freeSubst (freeSubst (freePick hET (by decide) _) (freePick hEV (by decide) _))
      (freePick hED (by decide) _)
  · exact freeSubst (freeSubst (freeSubst (freePick hMTP (by decide) _) hlvT) hlvW) hlvP
  · exact freeAppend (freeAppend (freePick hRH (by decide) _) (by decide))
      (freeSubst (freePick hRL (by decide) _) hn)
  · exact freeSubst (freePick hCT (by decide) _) hlvC
  · exact freePick hFI (by decide) _
  · exact hAS
  · exact hMI
  · decide
  · decide
  · decide
  · decide
  · decide

/-- The count marker `"**0**"` cannot overlap any mutation pattern or
replacement (checked by computation). -/
theorem star0Batch : noOverlap (toL "**0**") pat24 ∧ noOverlap (toL "**0**") repPosled ∧
    noOverlap (toL "**0**") patSutki ∧ noOverlap (toL "**0**") patObsh ∧
    noOverlap (toL "**0**") repPubl := by decide

/-- Every radar line renders a zero count as `"**0**"` somewhere in the
line (checked by computation over the pool). -/
theorem star0Lines : ∀ rl ∈ RADAR_LINES, toL "**0**" <:+: toL (subst rl "{n}" "0") := by
  decide

theorem buildSections_star0 (city : String) (m : Metrics) (g : Rng)
    (hm : toString m.n = "0") :
    ∃ sec ∈ (buildSections city m g).1, toL "**0**" <:+: toL sec := by
  simp only [buildSections]
  refine ⟨_, sectionsCore_radar _ _ _ _ _ _ _ _ _ _ _ _, ?_⟩
  rw [hm, toL_append]
  exact occExtendL _ (star0Lines _ (pick_mem (by decide) _))

/-- A character absent from the text and from the mutation replacements
stays absent through the mutation pass. -/
theorem mutateCharFree {a : Char} (h1 : a ∉ repPosled) (h2 : a ∉ pat24) (h3 : a ∉ repPubl) :
    ∀ (b1 b2 : Bool) (t : List Char), a ∉ t → a ∉ mutatePass b1 b2 t := by
  have step : ∀ (p r s : List Char), a ∉ s → a ∉ r → a ∉ replaceAll p r s :=
    fun p r s hs hr hmem => (mem_replaceAll s a hmem).elim hs hr
  intro b1 b2 t ht
  unfold mutatePass
  cases b1 <;> cases b2 <;> simp only [ite_true, ite_false, Bool.false_eq_true,
    if_true, if_false]
  · exact ht
  · exact step _ _ _ ht h3
  · exact step _ _ _ (step _ _ _ ht h1) h2
  · exact step _ _ _ (step _ _ _ (step _ _ _ ht h1) h2) h3

/-- C10.  On the empty observation list, for every randomness-source
state: the report text contains the rendered zero signal count
(`"**0**"` interpolated by every radar line), the confidence label is
the low label `"низкая"`, and no evidence block occurs (its header
never appears in the text), whatever the random outcomes — provided
the city string does not itself contain the evidence-block marker. -/
theorem claim10_empty : ∀ (g : Rng) (city : String), newsEmoji ∉ toL city →
    (toL "**0**" <:+: toL (build_message city (compute_metrics []) [] g)) ∧
    (words (compute_metrics [])).conf = "низкая" ∧
    ¬ (toL "📰 Открытые сигналы (последние 24ч):" <:+:
        toL (build_message city (compute_metrics []) [] g)) := by
  intro g city hcity
  have hn' : toString (compute_metrics ([] : List Article)).n = "0" := rfl
  have hbm : build_message city (compute_metrics []) [] g =
      ofL (mutatePass (maybe 0.25 (buildSections city (compute_metrics []) g).2).1
        (maybe 0.18 (maybe 0.25 (buildSections city (compute_metrics []) g).2).2).1
        (trimL (toL (joinNN (buildSections city (compute_metrics []) g).1)))) := rfl
  have hofl : ∀ l : List Char, toL (ofL l) = l := fun l => rfl
  -- the zero count marker
  obtain ⟨sec, hsecmem, hsec⟩ := buildSections_star0 city (compute_metrics []) g hn'
  have hjoin : toL "**0**" <:+:
      toL (joinNN (buildSections city (compute_metrics []) g).1) :=
    List.IsInfix.trans hsec (occJoinNN hsecmem)
  have hw1 : toL "**0**" = '*' :: ['*', '0', '*', '*'] := by decide
  have hw2 : (toL "**0**").reverse = '*' :: ['*', '0', '*', '*'] := by decide
  have hw3 : ('*').isWhitespace = false := by decide
  have htrim : toL "**0**" <:+:
      trimL (toL (joinNN (buildSections city (compute_metrics []) g).1)) :=
    occTrimL hw1 hw2 hw3 hw3 _ hjoin
  have hstar : toL "**0**" <:+: toL (build_message city (compute_metrics []) [] g) := by
    rw [hbm, hofl]
    exact (mutateKeep (by decide) star0Batch.1 star0Batch.2.1 star0Batch.2.2.1
      star0Batch.2.2.2.1 star0Batch.2.2.2.2 _ _ _).mpr htrim
  -- the confidence label
  have hc0 : (compute_metrics ([] : List Article)).confidence = 0 := by
    rw [conf_eq]
    norm_num
  have hconf : (words (compute_metrics [])).conf = "низкая" := by
    have he : (words (compute_metrics ([] : List Article))).conf =
        lvl3 (compute_metrics ([] : List Article)).confidence 0.35 0.75
          "низкая" "средняя" "высокая" := rfl
    rw [he, hc0]
    unfold lvl3
    rw [if_pos (by norm_num)]
  -- no evidence block
  have hnfree : newsEmoji ∉ toL (toString (compute_metrics ([] : List Article)).n) := by
    rw [hn']
    decide
  have hfree := buildSections_free city (compute_metrics []) g hcity hnfree
  have hjoinfree : newsEmoji ∉ toL (joinNN (buildSections city (compute_metrics []) g).1) := by
    intro hmem'
    rcases memJoinNN hmem' with ⟨s, hsm, hcs⟩ | hnl
    · exact hfree s hsm hcs
    · exact (by decide : ¬ (newsEmoji = '\n')) hnl
  have htrimfree : newsEmoji ∉
      trimL (toL (joinNN (buildSections city (compute_metrics []) g).1)) :=
    fun h => hjoinfree (subTrimL h)
  have hmutfree : newsEmoji ∉
      mutatePass (maybe 0.25 (buildSections city (compute_metrics []) g).2).1
        (maybe 0.18 (maybe 0.25 (buildSections city (compute_metrics []) g).2).2).1
        (trimL (toL (joinNN (buildSections city (compute_metrics []) g).1))) :=
    mutateCharFree (by decide) (by decide) (by decide) _ _ _ htrimfree
  refine ⟨hstar, hconf, ?_⟩
  intro hocc
  rw [hbm, hofl] at hocc
  have hsubs := List.IsInfix.subset hocc
  exact hmutfree (hsubs (by decide : newsEmoji ∈ toL "📰 Открытые сигналы (последние 24ч):"))

/-- Witness for C10 at a concrete city and seed. -/
theorem claim10_w :
    (newsEmoji ∉ toL "Tallinn") ∧
    ((toL "**0**" <:+: toL (build_message "Tallinn" (compute_metrics []) [] ⟨fun _ => 0, 0⟩)) ∧
      (words (compute_metrics [])).conf = "низкая" ∧
      ¬ (toL "📰 Открытые сигналы (последние 24ч):" <:+:
          toL (build_message "Tallinn" (compute_metrics []) [] ⟨fun _ => 0, 0⟩))) :=
  ⟨by decide, claim10_empty ⟨fun _ => 0, 0⟩ "Tallinn" (by decide)⟩

end JW
